import Mathlib

/-!
Verification of the curo repository's crawler core (src/scraper and
src/site_scraper) against its natural-language specification.

The Python sources are shallowly embedded: pure functions become Lean
functions on `String`/`List`, the async worker loop of
`src/scraper/crawler.py` becomes an explicit fuelled step function on a
crawl-state record, and fallible code returns `Option`/`Except`.
Machine-level concerns (real sockets, clocks, the SQLite engine) are
modelled by explicit parameters standing for their outcomes.
-/

namespace Curo

/-! ## Character-list string helpers

Python string operations used by the sources, implemented on `List Char`
(wrapped into `String` at the boundaries) so that every proof obligation
reduces in the kernel. -/

/-- `suffix.isSuffixOf s` on character lists; models Python `str.endswith`. -/
def strEndsWith (s suffix : String) : Bool :=
  List.isSuffixOf suffix.data s.data

/-- Models Python `str.startswith`. -/
def strStartsWith (s prefixStr : String) : Bool :=
  List.isPrefixOf prefixStr.data s.data

/-- Drop the last `n` characters; models `s.rsplit(":", 1)[0]` when the
separator is known to sit exactly `n` characters from the end. -/
def strDropRight (s : String) (n : Nat) : String :=
  ⟨s.data.take (s.data.length - n)⟩

/-- Collapse every run of consecutive `/` characters into a single `/`;
models `re.sub(r"/+", "/", path)` from `site_scraper/utils.py`. -/
def collapseSlashesAux : List Char → List Char
  | [] => []
  | [c] => [c]
  | a :: b :: rest =>
    if a = '/' ∧ b = '/' then collapseSlashesAux (b :: rest)
    else a :: collapseSlashesAux (b :: rest)

def collapseSlashes (s : String) : String :=
  ⟨collapseSlashesAux s.data⟩

/-- No two consecutive slashes occur in the character list. -/
def noDoubleSlash : List Char → Bool
  | a :: b :: rest => (!(a = '/' ∧ b = '/' : Bool)) && noDoubleSlash (b :: rest)
  | _ => true

/-! ## URL model (components as produced by Python `urlparse`)

`urlparse` splits a URL string into `(scheme, netloc, path, query,
fragment)`; it lowercases the scheme but preserves the case of the
netloc and path.  The Python normalizers below operate on this parsed
form and re-serialize with `urlunparse`, so we embed them directly on
the component record. -/

structure Url where
  scheme : String
  netloc : String
  path : String
  query : String
  fragment : String
deriving DecidableEq, Repr

/-- Embedding of `canonicalize_url` from `src/site_scraper/utils.py`:
`urldefrag` removes the fragment; the default port is stripped when the
scheme matches and the netloc literally ends with `":80"` / `":443"`
(`parsed.netloc.rsplit(":", 1)[0]`, which under those guards is exactly
"drop the last 3 / 4 characters"); repeated path separators are
collapsed (`re.sub(r"/+", "/", parsed.path)`) and an empty path becomes
`"/"`; the query is kept as is.  The scheme and the case of the netloc
are untouched. -/
def canonicalize_url (u : Url) : Url :=
  let netloc :=
    if u.scheme = "http" ∧ strEndsWith u.netloc ":80" = true then
      strDropRight u.netloc 3
    else u.netloc
  let netloc :=
    if u.scheme = "https" ∧ strEndsWith u.netloc ":443" = true then
      strDropRight u.netloc 4
    else netloc
  let path := collapseSlashes u.path
  let path := if path = "" then "/" else path
  { scheme := u.scheme, netloc := netloc, path := path,
    query := u.query, fragment := "" }

/-- The normalizer the specification describes (§4.1), written from the
spec's words for comparison with the source's `canonicalize_url`:
lowercase scheme and host, strip default port, collapse repeated path
separators, keep query, drop fragment, empty path becomes `"/"`.
(Relative resolution against a base happens before this step and is not
part of the component-level function.) -/
def specNormalizeUrl (u : Url) : Url :=
  let scheme := ⟨u.scheme.data.map Char.toLower⟩
  let netloc : String := ⟨u.netloc.data.map Char.toLower⟩
  let netloc :=
    if scheme = "http" ∧ strEndsWith netloc ":80" = true then
      strDropRight netloc 3
    else netloc
  let netloc :=
    if scheme = "https" ∧ strEndsWith netloc ":443" = true then
      strDropRight netloc 4
    else netloc
  let path := collapseSlashes u.path
  let path := if path = "" then "/" else path
  { scheme := scheme, netloc := netloc, path := path,
    query := u.query, fragment := "" }

/-! ## Link normalization from `src/scraper/crawler.py` (`Crawler._normalize_url`)

The Python function resolves `href` against `base_url` with `urljoin`,
rejects empty hrefs and non-http(s) results, removes the fragment with
`urldefrag` (everything from the first `#`), and strips one trailing
slash.  The standard-library `urljoin` is abstracted as a parameter;
for an absolute `href` it returns `href` itself. -/

def stripFragment (s : String) : String :=
  ⟨s.data.takeWhile (· ≠ '#')⟩

def normalizeHref (urljoin : String → String → String)
    (baseUrl href : String) : Option String :=
  if href = "" then none
  else
    let absolute := urljoin baseUrl href
    if strStartsWith absolute "http://" = true ∨
        strStartsWith absolute "https://" = true then
      let absolute := stripFragment absolute
      let absolute :=
        if strEndsWith absolute "/" = true then strDropRight absolute 1
        else absolute
      some absolute
    else none

/-! ## The worker loop of `src/scraper/crawler.py` (`Crawler.crawl`)

The crawl state holds the shared deque (`self.queue`), the seen set
(`self.seen`, kept as a duplicate-free list), and the stored-page
counter (`stored`).  Three ghost logs record observable events for the
theorems: `records` the upserted `(url, status)` pairs, `fetchedLog`
the URLs for which `fetch_and_extract` was invoked, and `enqueues`
every URL appended to the queue by the link-enqueue loop.

In the Python source, the sequence pop / seen-check / `seen.add` runs
with no `await` point in between, so under asyncio's cooperative
scheduling it is atomic; one iteration of the guarded `while` loop is
therefore modelled as one atomic `step`.  The fetch outcome of a URL is
a parameter: `page status links` for a record returned by
`fetch_and_extract`, `skip` for a falsy result, and `exn` for an
exception escaping `fetch_and_extract` (e.g. tenacity's `RetryError`
after exhausted retries), which propagates out of the worker task. -/

inductive FetchOutcome where
  | page (status : Nat) (links : List String)
  | skip
  | exn
deriving DecidableEq, Repr

structure CrawlConfig where
  maxPages : Nat
  maxDepth : Nat
  /-- `self.exclude_pattern.search(url)` as a predicate. -/
  excludeMatch : String → Bool
  /-- `self.domain_whitelist` (empty list = empty set = no filtering). -/
  whitelist : List String
  /-- `tldextract.extract(url).registered_domain` ("" when absent). -/
  domainOf : String → String
  /-- Truthiness of `self.storage`. -/
  storage : Bool

structure CrawlState where
  queue : List (String × Nat)
  seen : List String
  stored : Nat
  records : List (String × Nat)
  fetchedLog : List String
  enqueues : List String
deriving DecidableEq, Repr

/-- Embedding of `Crawler._should_enqueue`: reject when already seen,
when the exclude pattern matches, or when a whitelist is configured and
the URL's registered domain is nonempty and not whitelisted. -/
def should_enqueue (cfg : CrawlConfig) (seen : List String) (url : String) : Bool :=
  if url ∈ seen then false
  else if cfg.excludeMatch url then false
  else if cfg.whitelist ≠ [] ∧ cfg.domainOf url ≠ "" ∧
      cfg.domainOf url ∉ cfg.whitelist then false
  else true

/-- The link-enqueue loop at the end of one worker iteration:
`for link in result["links"]: if self._should_enqueue(link):
self.queue.append((link, depth + 1))`. -/
def enqueueLinks (cfg : CrawlConfig) (d : Nat) (links : List String)
    (st : CrawlState) : CrawlState :=
  links.foldl
    (fun s l =>
      if should_enqueue cfg s.seen l then
        { s with queue := s.queue ++ [(l, d)], enqueues := s.enqueues ++ [l] }
      else s)
    st

inductive StepRes where
  | halt
  | cont (s : CrawlState)
  | abort (s : CrawlState)
deriving DecidableEq, Repr

/-- State after the pop / `seen.add` / `fetch_and_extract` call for a
fresh URL (the fetched-log ghost records the call). -/
def stepFetched (st : CrawlState) (url : String) (rest : List (String × Nat)) :
    CrawlState :=
  { st with queue := rest, seen := url :: st.seen,
            fetchedLog := url :: st.fetchedLog }

/-- State after a successful `fetch_and_extract`: the upsert/counter
when storage is configured, then the link-enqueue loop when
`depth < self.config.max_depth`. -/
def stepPage (cfg : CrawlConfig) (st : CrawlState) (url : String) (depth : Nat)
    (rest : List (String × Nat)) (status : Nat) (links : List String) :
    CrawlState :=
  let st2 := stepFetched st url rest
  let st3 :=
    if cfg.storage then
      { st2 with stored := st2.stored + 1, records := (url, status) :: st2.records }
    else st2
  if depth < cfg.maxDepth then enqueueLinks cfg (depth + 1) links st3 else st3

/-- One iteration of the worker's `while self.queue and len(self.seen) <
self.config.max_pages:` loop.  `robots` is the outcome of the robots
check for a URL (`True` when robots are disabled or allow it). -/
def step (cfg : CrawlConfig) (robots : String → Bool)
    (fetch : String → FetchOutcome) (st : CrawlState) : StepRes :=
  match st.queue with
  | [] => .halt
  | (url, depth) :: rest =>
    if st.seen.length < cfg.maxPages then
      if url ∈ st.seen then .cont { st with queue := rest }
      else if robots url then
        match fetch url with
        | .exn => .abort (stepFetched st url rest)
        | .skip => .cont (stepFetched st url rest)
        | .page status links => .cont (stepPage cfg st url depth rest status links)
      else .cont { st with queue := rest, seen := url :: st.seen }
    else .halt

/-- Run the (single-worker, hence sequential) crawl loop for at most
`fuel` iterations.  The boolean is `true` when a worker task died from
an uncaught exception (which `asyncio.gather` re-raises, aborting
`Crawler.crawl`). -/
def run (cfg : CrawlConfig) (robots : String → Bool)
    (fetch : String → FetchOutcome) : Nat → CrawlState → CrawlState × Bool
  | 0, st => (st, false)
  | fuel + 1, st =>
    match step cfg robots fetch st with
    | .halt => (st, false)
    | .abort s => (s, true)
    | .cont s => run cfg robots fetch fuel s

/-- Initial state: `self.queue = deque((url, 0) for url in start_urls)`;
`preSeen` is the seen set pre-populated from storage on resume. -/
def initState (seeds : List String) (preSeen : List String) : CrawlState :=
  { queue := seeds.map (·, 0), seen := preSeen, stored := 0,
    records := [], fetchedLog := [], enqueues := [] }

/-- The invariant connecting the fetched-URL ghost log to the seen set:
each logged URL was fresh when fetched (so the log is duplicate-free),
logged URLs are in the seen set, the resume-time seen set stays in the
seen set, no logged URL was pre-seen, and the persisted URLs are a
sublist of the log. -/
def FetchInv (preSeen : List String) (st : CrawlState) : Prop :=
  st.fetchedLog.Nodup ∧
  (∀ u ∈ st.fetchedLog, u ∈ st.seen) ∧
  (∀ u ∈ preSeen, u ∈ st.seen) ∧
  (∀ u ∈ st.fetchedLog, u ∉ preSeen) ∧
  (st.records.map Prod.fst).Sublist st.fetchedLog

/-! ## The retrying fetch of `src/scraper/crawler.py`
(`Crawler.fetch_and_extract._fetch_html`)

`AsyncRetrying(stop=stop_after_attempt(3), retry=
retry_if_exception_type((httpx.HTTPError, asyncio.TimeoutError)))`
around `session.get(url)`.  Each attempt's outcome is one of: a raised
retryable exception (`transport`: httpx transport errors and timeouts),
a raised non-retryable exception (`otherExn`), or an HTTP response
(`resp status body`).  A response is returned immediately; a response
with status `>= 400` is returned with an empty body.  After the third
retryable failure tenacity raises `RetryError`; a non-retryable
exception is re-raised at once. -/

inductive Attempt where
  | transport
  | otherExn
  | resp (status : Nat) (body : String)
deriving DecidableEq, Repr

inductive FetchHtmlErr where
  | retryExhausted
  | raised
deriving DecidableEq, Repr

def fetchHtmlAux : List Attempt → Nat → Except FetchHtmlErr (Nat × String)
  | _, 0 => .error .retryExhausted
  | [], _ + 1 => .error .retryExhausted
  | a :: rest, n + 1 =>
    match a with
    | .resp status body => .ok (status, if 400 ≤ status then "" else body)
    | .transport => fetchHtmlAux rest n
    | .otherExn => .error .raised

/-- `_fetch_html` over the per-attempt outcomes, with the source's
`stop_after_attempt(3)`. -/
def fetchHtml (outcomes : List Attempt) : Except FetchHtmlErr (Nat × String) :=
  fetchHtmlAux outcomes 3

/-! ## Readable-content extraction of `src/scraper/extractors.py`
(`extract_readable`)

`extract_readable(html, url)` returns `("", "")` for falsy html;
otherwise it tries the readability path (`Document(html)` +
BeautifulSoup over the cleaned summary) and, if that raises, a plain
BeautifulSoup fallback (title tag text, scripts/styles stripped); if
that raises too it returns `("", "")`.  The two external parser paths
are modelled by their outcomes: a `(title, text)` pair or a raised
exception. -/

inductive ExtractOutcome where
  | ok (title text : String)
  | raise
deriving DecidableEq, Repr

def extract_readable (html : String) (readabilityPath fallbackPath : ExtractOutcome) :
    String × String :=
  if html = "" then ("", "")
  else
    match readabilityPath with
    | .ok title text => (title, text)
    | .raise =>
      match fallbackPath with
      | .ok title text => (title, text)
      | .raise => ("", "")

/-! ## The robots cache of `src/scraper/robots.py` (`RobotsCache`)

`_fetch_and_parse` issues one GET for `{origin}/robots.txt`; on any
exception the text is `""`, on a response the text is the body when
`status_code < 400` and `""` otherwise.  The text is fed to
`urllib.robotparser` and the `Sitemap:` lines are collected manually.
The standard-library `RobotFileParser` is embedded in reduced form:
groups of `User-agent` lines with their `Allow`/`Disallow` rules, where
a group applies when it names `*` or the crawler's user agent, and the
first applicable group's first rule whose path is a prefix of the URL's
path decides; with no applicable group or no deciding rule
`can_fetch` returns `True` (in particular always `True` for empty
text). -/

inductive RobotsFetch where
  | err
  | resp (status : Nat) (body : String)
deriving DecidableEq, Repr

/-- The `text` variable of `RobotsCache._fetch_and_parse` as a function
of the fetch outcome. -/
def robotsText : RobotsFetch → String
  | .err => ""
  | .resp status body => if status < 400 then body else ""

def splitLinesAux (cur : List Char) : List Char → List (List Char)
  | [] => [cur]
  | c :: rest =>
    if c = '\n' then cur :: splitLinesAux [] rest
    else splitLinesAux (cur ++ [c]) rest

/-- Models Python `str.splitlines` for newline-separated text (the only
separator appearing in the inputs considered). -/
def splitLines (s : String) : List String :=
  (splitLinesAux [] s.data).map String.mk

def isSpaceChar (c : Char) : Bool := c = ' ' ∨ c = '\t' ∨ c = '\r'

/-- Models Python `str.strip` (for the whitespace in robots.txt lines). -/
def stripStr (s : String) : String :=
  ⟨((s.data.dropWhile isSpaceChar).reverse.dropWhile isSpaceChar).reverse⟩

def lowerAscii (s : String) : String :=
  ⟨s.data.map Char.toLower⟩

/-- `line.split(":", 1)[1]` — everything after the first colon
("" when no colon occurs). -/
def afterFirstColon (s : String) : String :=
  ⟨(s.data.dropWhile (· ≠ ':')).drop 1⟩

/-- `line.split(":", 1)[0]`. -/
def beforeFirstColon (s : String) : String :=
  ⟨s.data.takeWhile (· ≠ ':')⟩

structure RuleLine where
  allow : Bool
  path : String
deriving DecidableEq, Repr

structure RobotsEntry where
  agents : List String
  rules : List RuleLine
deriving DecidableEq, Repr

structure RobotsParseState where
  agents : List String
  rules : List RuleLine
  entries : List RobotsEntry
deriving Repr

def robotsParseLine (st : RobotsParseState) (line : String) : RobotsParseState :=
  let line := stripStr line
  if line = "" ∨ strStartsWith line "#" = true then st
  else
    let key := lowerAscii (stripStr (beforeFirstColon line))
    let val := stripStr (afterFirstColon line)
    if key = "user-agent" then
      if st.rules.isEmpty then { st with agents := st.agents ++ [val] }
      else { agents := [val], rules := [],
             entries := st.entries ++ [⟨st.agents, st.rules⟩] }
    else if key = "disallow" then { st with rules := st.rules ++ [⟨false, val⟩] }
    else if key = "allow" then { st with rules := st.rules ++ [⟨true, val⟩] }
    else st

def parseRobots (text : String) : List RobotsEntry :=
  let final := (splitLines text).foldl robotsParseLine ⟨[], [], []⟩
  if final.rules.isEmpty then final.entries
  else final.entries ++ [⟨final.agents, final.rules⟩]

/-- The path component of a URL as `robotparser.can_fetch` computes it:
`urlparse(url).path`, defaulting to `"/"` when empty. -/
def urlPathOf (url : String) : String :=
  let afterScheme :=
    if strStartsWith url "http://" = true then url.data.drop 7
    else if strStartsWith url "https://" = true then url.data.drop 8
    else url.data
  let p := afterScheme.dropWhile (· ≠ '/')
  if p.isEmpty then "/" else ⟨p⟩

def entryApplies (ua : String) (e : RobotsEntry) : Bool :=
  e.agents.contains "*" || e.agents.contains ua

def rulesDecide (p : String) : List RuleLine → Bool
  | [] => true
  | r :: rest =>
    if strStartsWith p r.path = true then r.allow else rulesDecide p rest

/-- Reduced `RobotFileParser.can_fetch`. -/
def canFetch (entries : List RobotsEntry) (ua url : String) : Bool :=
  match entries.find? (entryApplies ua) with
  | none => true
  | some e => rulesDecide (urlPathOf url) e.rules

/-- `RobotsCache.allowed` as a function of the robots.txt fetch
outcome: the parser built from `robotsText` decides. -/
def robotsAllowed (ua : String) (outcome : RobotsFetch) (url : String) : Bool :=
  canFetch (parseRobots (robotsText outcome)) ua url

/-- The manual `Sitemap:` extraction loop of
`RobotsCache._fetch_and_parse`, as a function of the fetch outcome. -/
def robotsSitemaps (outcome : RobotsFetch) : List String :=
  (splitLines (robotsText outcome)).filterMap fun line =>
    if line = "" then none
    else if strStartsWith (lowerAscii (stripStr line)) "sitemap:" = true then
      let url := stripStr (afterFirstColon line)
      if url = "" then none else some url
    else none

/-! ## Table extraction (`src/site_scraper/extractors.py` and
`src/site_scraper/crawler.py`)

`extract_html` keeps the nonempty cell rows of each `<table>`, reports
`num_rows` and `num_cols = max(len(r) for r in rows)`, and drops tables
with no rows.  `Crawler._process_html` pads each row to `num_cols`
(`row + [""] * (max_cols - len(row))`) when writing the CSV. -/

structure TableExtraction where
  caption : Option String
  rows : List (List String)
  num_rows : Nat
  num_cols : Nat
deriving DecidableEq, Repr

def maxRowLen (rows : List (List String)) : Nat :=
  rows.foldr (fun r m => max r.length m) 0

/-- One `<table>` element of `extract_html`: `rawRows` are the cell-text
lists of its `<tr>` rows (possibly empty for rows without cells, which
the source skips); `none` when no row remains. -/
def mkTableExtraction (caption : Option String) (rawRows : List (List String)) :
    Option TableExtraction :=
  let rows := rawRows.filter (fun r => !r.isEmpty)
  if rows.isEmpty then none
  else some ⟨caption, rows, rows.length, maxRowLen rows⟩

/-- The padding step of `Crawler._process_html`. -/
def padTableRows (t : TableExtraction) : List (List String) :=
  t.rows.map (fun row => row ++ List.replicate (t.num_cols - row.length) "")

/-! ## The storage sink of `src/scraper/storage.py` (`Storage`)

The SQLite `pages` table (`url TEXT PRIMARY KEY, status, title, text,
html, headers, fetched_at`) is modelled as a list of rows whose `url`
keys are unique.  `INSERT ... ON CONFLICT(url) DO UPDATE SET ...`
updates the existing row with that key in place, otherwise appends.
The connection is `none` when `db_path` is `None` or the async context
was never entered. -/

structure PageRow where
  url : String
  status : Nat
  title : String
  text : String
  html : Option String
  headers : String
  fetched_at : Nat
deriving DecidableEq, Repr

/-- The upsert statement of `Storage.upsert_page` on the table. -/
def upsertRow : List PageRow → PageRow → List PageRow
  | [], r => [r]
  | x :: t, r => if x.url = r.url then r :: t else x :: upsertRow t r

/-- The row a `SELECT ... WHERE url = k` would return (at most one row
exists per key under the primary-key invariant). -/
def lookupRow : List PageRow → String → Option PageRow
  | [], _ => none
  | x :: t, k => if x.url = k then some x else lookupRow t k

/-- Descending insertion by `fetched_at`, modelling
`ORDER BY fetched_at DESC` (tie order is unspecified in SQL; this picks
one). -/
def insertByFetchedDesc (r : PageRow) : List PageRow → List PageRow
  | [] => [r]
  | x :: t =>
    if x.fetched_at ≤ r.fetched_at then r :: x :: t
    else x :: insertByFetchedDesc r t

def sortByFetchedDesc (t : List PageRow) : List PageRow :=
  t.foldr insertByFetchedDesc []

structure ScraperStorage where
  db_path : Option String
  conn : Option (List PageRow)
deriving DecidableEq, Repr

/-- `Storage.__aenter__`: connects (loading whatever rows the database
file `disk` holds) only when `db_path` is set. -/
def storageAenter (s : ScraperStorage) (disk : List PageRow) : ScraperStorage :=
  match s.db_path with
  | some _ => { s with conn := some disk }
  | none => s

/-- `Storage.upsert_page`: `if not self._conn: return`. -/
def storageUpsertPage (s : ScraperStorage) (r : PageRow) : ScraperStorage :=
  match s.conn with
  | none => s
  | some t => { s with conn := some (upsertRow t r) }

/-- `Storage.list_pages`: `if not self._conn: return []`. -/
def storageListPages (s : ScraperStorage) : List PageRow :=
  match s.conn with
  | none => []
  | some t => sortByFetchedDesc t

/-- `Storage.get_all_urls`: `if not self._conn: return []`. -/
def storageGetAllUrls (s : ScraperStorage) : List String :=
  match s.conn with
  | none => []
  | some t => t.map (·.url)

/-! ## The worker of `src/site_scraper/crawler.py` (`Crawler._worker`)

The PageResult produced for one dequeued URL, as a function of the
fetch outcome: `_fetch` swallows every exception and returns `None`
(recorded as `error="request_failed"`); a response with status `>= 400`
is recorded as `error=f"http_{status}"`; otherwise the PDF / HTML /
other-content branches produce a record with `error=None` (`_process_pdf`
and `_process_html` both hard-code `status=200` in their records).  The
worker's `except Exception` fallback never fires in this model because
the processing branches are total. -/

inductive SiteFetchOutcome where
  | failed
  | resp (status : Nat) (contentType : String) (urlEndsPdf : Bool)
deriving DecidableEq, Repr

structure SitePageResult where
  status : Nat
  content_type : String
  is_pdf : Bool
  error : Option String
deriving DecidableEq, Repr

def siteWorkerRecord : SiteFetchOutcome → SitePageResult
  | .failed => ⟨0, "", false, some "request_failed"⟩
  | .resp status contentType urlEndsPdf =>
    if 400 ≤ status then
      ⟨status, contentType, false, some ("http_" ++ toString status)⟩
    else if contentType = "application/pdf" ∨ urlEndsPdf = true then
      ⟨200, "application/pdf", true, none⟩
    else if strStartsWith contentType "text/html" = true then
      ⟨200, "text/html", false, none⟩
    else ⟨status, contentType, false, none⟩

/-! ## Theorems about URL normalization (claims C5 and C6) -/

theorem collapseSlashesAux_head (b : Char) (r : List Char) :
    ∃ t, collapseSlashesAux (b :: r) = b :: t := by
  induction r generalizing b with
  | nil => exact ⟨[], rfl⟩
  | cons c r ih =>
    by_cases h : b = '/' ∧ c = '/'
    · obtain ⟨t, ht⟩ := ih c
      refine ⟨t, ?_⟩
      rw [show collapseSlashesAux (b :: c :: r) = collapseSlashesAux (c :: r) by
            simp [collapseSlashesAux, h], ht, h.2, h.1]
    · exact ⟨collapseSlashesAux (c :: r), by simp [collapseSlashesAux, h]⟩

theorem noDoubleSlash_collapseSlashesAux (l : List Char) :
    noDoubleSlash (collapseSlashesAux l) = true := by
  induction l with
  | nil => rfl
  | cons a l ih =>
    cases l with
    | nil => rfl
    | cons b r =>
      by_cases h : a = '/' ∧ b = '/'
      · rw [show collapseSlashesAux (a :: b :: r) = collapseSlashesAux (b :: r) by
          simp [collapseSlashesAux, h]]
        exact ih
      · rw [show collapseSlashesAux (a :: b :: r) = a :: collapseSlashesAux (b :: r) by
          simp [collapseSlashesAux, h]]
        obtain ⟨t, ht⟩ := collapseSlashesAux_head b r
        rw [ht]
        have ihr : noDoubleSlash (b :: t) = true := ht ▸ ih
        simp only [noDoubleSlash, Bool.and_eq_true, decide_eq_true_eq] at ihr ⊢
        exact ⟨by simp [h], ihr⟩

theorem collapseSlashesAux_of_noDoubleSlash (l : List Char)
    (h : noDoubleSlash l = true) : collapseSlashesAux l = l := by
  induction l with
  | nil => rfl
  | cons a l ih =>
    cases l with
    | nil => rfl
    | cons b r =>
      simp only [noDoubleSlash, Bool.and_eq_true] at h
      have hab : ¬(a = '/' ∧ b = '/') := by
        intro hc
        simp [hc.1, hc.2] at h
      rw [show collapseSlashesAux (a :: b :: r) = a :: collapseSlashesAux (b :: r) by
        simp [collapseSlashesAux, hab]]
      rw [ih h.2]

theorem collapseSlashes_of_noDoubleSlash (s : String)
    (h : noDoubleSlash s.data = true) : collapseSlashes s = s := by
  unfold collapseSlashes
  rw [collapseSlashesAux_of_noDoubleSlash s.data h]

/-- The fragment, nonemptiness and separator-freeness guarantees of
`canonicalize_url`, shared by the rule characterization and the
idempotence theorem. -/
theorem canonicalize_url_core (u : Url) :
    (canonicalize_url u).fragment = "" ∧
    (canonicalize_url u).path ≠ "" ∧
    noDoubleSlash (canonicalize_url u).path.data = true := by
  refine ⟨rfl, ?_, ?_⟩
  · show (if collapseSlashes u.path = "" then "/" else collapseSlashes u.path) ≠ ""
    split
    · decide
    · next h => exact h
  · show noDoubleSlash
      (if collapseSlashes u.path = "" then "/" else collapseSlashes u.path).data = true
    split
    · decide
    · exact noDoubleSlash_collapseSlashesAux u.path.data

/-- C5, counterexample: contrary to the spec's rule list, the source's
normalizer does not lowercase the host: on `http://EX.com//a?q#f` the
spec's rules give host `ex.com` while `canonicalize_url` keeps
`EX.com`. -/
theorem canonicalize_host_case_counterexample :
    canonicalize_url ⟨"http", "EX.com", "//a", "q", "f"⟩ ≠
      specNormalizeUrl ⟨"http", "EX.com", "//a", "q", "f"⟩ ∧
    (canonicalize_url ⟨"http", "EX.com", "//a", "q", "f"⟩).netloc = "EX.com" ∧
    (specNormalizeUrl ⟨"http", "EX.com", "//a", "q", "f"⟩).netloc = "ex.com" := by
  refine ⟨?_, by decide, by decide⟩
  decide

/-- C5 (amended): `canonicalize_url` strips the fragment, leaves the
query (and the scheme, which `urlparse` has already lowercased)
untouched, produces a nonempty path with no repeated separators
(collapsing runs of `/`, empty path becomes `/`), and either leaves the
netloc unchanged or strips a literal default-port suffix (`:80` under
http, `:443` under https); in particular the case of the host is
preserved. -/
theorem canonicalize_url_rules (u : Url) :
    (canonicalize_url u).fragment = "" ∧
    (canonicalize_url u).query = u.query ∧
    (canonicalize_url u).scheme = u.scheme ∧
    (canonicalize_url u).path ≠ "" ∧
    noDoubleSlash (canonicalize_url u).path.data = true ∧
    ((canonicalize_url u).netloc = u.netloc ∨
      (u.scheme = "http" ∧ (canonicalize_url u).netloc = strDropRight u.netloc 3) ∨
      (u.scheme = "https" ∧ (canonicalize_url u).netloc = strDropRight u.netloc 4)) := by
  obtain ⟨hfrag, hpne, hnds⟩ := canonicalize_url_core u
  refine ⟨hfrag, rfl, rfl, hpne, hnds, ?_⟩
  · have hnl : (canonicalize_url u).netloc =
        (if u.scheme = "https" ∧ strEndsWith u.netloc ":443" = true then
          strDropRight u.netloc 4
        else if u.scheme = "http" ∧ strEndsWith u.netloc ":80" = true then
          strDropRight u.netloc 3
        else u.netloc) := rfl
    rw [hnl]
    by_cases h1 : u.scheme = "http" ∧ strEndsWith u.netloc ":80" = true
    · have h2 : ¬(u.scheme = "https" ∧ strEndsWith u.netloc ":443" = true) := by
        rintro ⟨hs, -⟩
        rw [h1.1] at hs
        exact absurd hs (by decide)
      rw [if_pos h1, if_neg h2]
      exact Or.inr (Or.inl ⟨h1.1, rfl⟩)
    · rw [if_neg h1]
      by_cases h2 : u.scheme = "https" ∧ strEndsWith u.netloc ":443" = true
      · rw [if_pos h2]
        exact Or.inr (Or.inr ⟨h2.1, rfl⟩)
      · rw [if_neg h2]
        exact Or.inl rfl

/-- C6, counterexample: `canonicalize_url` is not idempotent on every
URL string: with authority `a:80:80` (as `urlparse` parses
`http://a:80:80/`), one application strips one `:80` suffix and a second
application strips another, so normalizing an already-normalized URL
changes it again. -/
theorem canonicalize_idem_counterexample :
    canonicalize_url (canonicalize_url ⟨"http", "a:80:80", "/", "", ""⟩) ≠
      canonicalize_url ⟨"http", "a:80:80", "/", "", ""⟩ := by
  decide

theorem canonicalize_url_fixed (c : Url) (hfrag : c.fragment = "")
    (hpne : c.path ≠ "") (hnds : noDoubleSlash c.path.data = true)
    (h80 : ¬(c.scheme = "http" ∧ strEndsWith c.netloc ":80" = true))
    (h443 : ¬(c.scheme = "https" ∧ strEndsWith c.netloc ":443" = true)) :
    canonicalize_url c = c := by
  obtain ⟨s, n, p, q, f⟩ := c
  simp only at hfrag hpne hnds h80 h443
  subst hfrag
  have hcol : collapseSlashes p = p := collapseSlashes_of_noDoubleSlash p hnds
  simp [canonicalize_url, h80, h443, hcol, hpne]

/-- C6 (amended): `canonicalize_url` is idempotent on every URL whose
normalized authority does not still end in the scheme's default port —
in particular on every URL with a well-formed `host[:port]` authority.
The only exceptions are authorities with stacked default-port suffixes
such as `a:80:80`. -/
theorem canonicalize_idem_of_single_port (u : Url)
    (h80 : ¬((canonicalize_url u).scheme = "http" ∧
        strEndsWith (canonicalize_url u).netloc ":80" = true))
    (h443 : ¬((canonicalize_url u).scheme = "https" ∧
        strEndsWith (canonicalize_url u).netloc ":443" = true)) :
    canonicalize_url (canonicalize_url u) = canonicalize_url u := by
  obtain ⟨hfrag, hpne, hnds⟩ := canonicalize_url_core u
  exact canonicalize_url_fixed (canonicalize_url u) hfrag hpne hnds h80 h443

/-- C6, witness: the idempotence theorem applied to the concrete URL
`http://EX.com:80//a?q#fr`. -/
theorem canonicalize_idem_witness :
    (¬((canonicalize_url ⟨"http", "EX.com:80", "//a", "q", "fr"⟩).scheme = "http" ∧
        strEndsWith (canonicalize_url ⟨"http", "EX.com:80", "//a", "q", "fr"⟩).netloc
          ":80" = true)) ∧
    canonicalize_url (canonicalize_url ⟨"http", "EX.com:80", "//a", "q", "fr"⟩) =
      canonicalize_url ⟨"http", "EX.com:80", "//a", "q", "fr"⟩ :=
  ⟨by decide, canonicalize_idem_of_single_port _ (by decide) (by decide)⟩

/-! ## Theorems about table extraction (claim C8) -/

theorem length_le_maxRowLen {rows : List (List String)} {r : List String}
    (h : r ∈ rows) : r.length ≤ maxRowLen rows := by
  induction rows with
  | nil => cases h
  | cons x t ih =>
    rcases List.mem_cons.mp h with h | h
    · subst h
      exact le_max_left _ _
    · exact le_trans (ih h) (le_max_right _ _)

/-- C8: every extracted HTML table is reported with
`num_cols = max(len(r) for r in rows)`, and the persistence step pads
each row with empty strings to exactly `num_cols` cells, so all rows of
one table have the same column count. -/
theorem table_rows_padded_rectangular (caption : Option String)
    (rawRows : List (List String)) (t : TableExtraction)
    (h : mkTableExtraction caption rawRows = some t) :
    (∀ row ∈ padTableRows t, row.length = t.num_cols) ∧
    t.num_cols = maxRowLen t.rows := by
  simp only [mkTableExtraction] at h
  split at h
  · cases h
  · rw [Option.some_inj] at h
    subst h
    constructor
    · intro row hrow
      simp only [padTableRows, List.mem_map] at hrow
      obtain ⟨r, hr, hrw⟩ := hrow
      subst hrw
      have hle : r.length ≤ maxRowLen (rawRows.filter (fun r => !r.isEmpty)) :=
        length_le_maxRowLen hr
      simp only [List.length_append, List.length_replicate]
      omega
    · rfl

/-- C8, witness: the spec's example — rows of 3, 2 and 4 cells give
`num_cols = 4` and all padded rows have length 4. -/
theorem table_rows_padded_witness :
    mkTableExtraction none [["a", "b", "c"], ["d", "e"], ["f", "g", "h", "i"]] =
      some ⟨none, [["a", "b", "c"], ["d", "e"], ["f", "g", "h", "i"]], 3, 4⟩ ∧
    (∀ row ∈ padTableRows
        ⟨none, [["a", "b", "c"], ["d", "e"], ["f", "g", "h", "i"]], 3, 4⟩,
      row.length = 4) ∧
    padTableRows ⟨none, [["a", "b", "c"], ["d", "e"], ["f", "g", "h", "i"]], 3, 4⟩ =
      [["a", "b", "c", ""], ["d", "e", "", ""], ["f", "g", "h", "i"]] := by
  refine ⟨by decide, ?_, by decide⟩
  exact (table_rows_padded_rectangular none
    [["a", "b", "c"], ["d", "e"], ["f", "g", "h", "i"]]
    ⟨none, [["a", "b", "c"], ["d", "e"], ["f", "g", "h", "i"]], 3, 4⟩ (by decide)).1

/-! ## Theorems about the storage sink (claims C9 and C10) -/

theorem upsertRow_cons_pos (x : PageRow) (t : List PageRow) (r : PageRow)
    (h : x.url = r.url) : upsertRow (x :: t) r = r :: t := by
  simp [upsertRow, h]

theorem upsertRow_cons_neg (x : PageRow) (t : List PageRow) (r : PageRow)
    (h : ¬x.url = r.url) : upsertRow (x :: t) r = x :: upsertRow t r := by
  simp [upsertRow, h]

theorem upsertRow_keys_subset (t : List PageRow) (r : PageRow) :
    ∀ k ∈ (upsertRow t r).map (·.url), k ∈ r.url :: t.map (·.url) := by
  induction t with
  | nil =>
    intro k hk
    simp only [upsertRow, List.map_cons, List.map_nil] at hk
    rcases List.mem_cons.mp hk with h | h
    · exact List.mem_cons.mpr (Or.inl h)
    · cases h
  | cons x t ih =>
    intro k hk
    by_cases hx : x.url = r.url
    · rw [upsertRow_cons_pos x t r hx, List.map_cons] at hk
      rcases List.mem_cons.mp hk with h | h
      · exact List.mem_cons.mpr (Or.inl h)
      · exact List.mem_cons.mpr (Or.inr (List.mem_cons.mpr (Or.inr h)))
    · rw [upsertRow_cons_neg x t r hx, List.map_cons] at hk
      rcases List.mem_cons.mp hk with h | h
      · exact List.mem_cons.mpr (Or.inr (List.mem_cons.mpr (Or.inl h)))
      · rcases List.mem_cons.mp (ih k h) with h' | h'
        · exact List.mem_cons.mpr (Or.inl h')
        · exact List.mem_cons.mpr (Or.inr (List.mem_cons.mpr (Or.inr h')))

theorem upsertRow_keys_nodup (t : List PageRow) (r : PageRow)
    (h : (t.map (·.url)).Nodup) : ((upsertRow t r).map (·.url)).Nodup := by
  induction t with
  | nil => simp [upsertRow]
  | cons x t ih =>
    simp only [List.map_cons, List.nodup_cons] at h
    by_cases hx : x.url = r.url
    · rw [upsertRow_cons_pos x t r hx, List.map_cons, List.nodup_cons]
      exact ⟨hx ▸ h.1, h.2⟩
    · rw [upsertRow_cons_neg x t r hx, List.map_cons, List.nodup_cons]
      refine ⟨fun hmem => ?_, ih h.2⟩
      rcases List.mem_cons.mp (upsertRow_keys_subset t r x.url hmem) with h' | h'
      · exact hx h'
      · exact h.1 h'

theorem lookupRow_upsertRow (t : List PageRow) (r : PageRow) (k : String) :
    lookupRow (upsertRow t r) k = if k = r.url then some r else lookupRow t k := by
  induction t with
  | nil =>
    by_cases hk : k = r.url
    · simp [upsertRow, lookupRow, hk]
    · have hrk : ¬r.url = k := fun h => hk h.symm
      simp [upsertRow, lookupRow, hk, hrk]
  | cons x t ih =>
    by_cases hx : x.url = r.url
    · rw [upsertRow_cons_pos x t r hx]
      by_cases hk : k = r.url
      · simp [lookupRow, hk]
      · have hrk : ¬r.url = k := fun h => hk h.symm
        have hxk : ¬x.url = k := fun h => hk (hx ▸ h).symm
        simp [lookupRow, hk, hrk, hxk]
    · rw [upsertRow_cons_neg x t r hx]
      by_cases hxk : x.url = k
      · have hk : ¬k = r.url := fun h => hx (h ▸ hxk)
        simp [lookupRow, hxk, hk]
      · simp [lookupRow, hxk, ih]

theorem upsertRow_idem (t : List PageRow) (r : PageRow) :
    upsertRow (upsertRow t r) r = upsertRow t r := by
  induction t with
  | nil =>
    show upsertRow [r] r = [r]
    exact upsertRow_cons_pos r [] r rfl
  | cons x t ih =>
    by_cases hx : x.url = r.url
    · rw [upsertRow_cons_pos x t r hx, upsertRow_cons_pos r t r rfl]
    · rw [upsertRow_cons_neg x t r hx, upsertRow_cons_neg x (upsertRow t r) r hx, ih]

theorem foldl_upsertRow_keys_nodup (rs : List PageRow) (t : List PageRow)
    (h : (t.map (·.url)).Nodup) :
    ((rs.foldl upsertRow t).map (·.url)).Nodup := by
  induction rs generalizing t with
  | nil => exact h
  | cons r rs ih => exact ih _ (upsertRow_keys_nodup t r h)

/-- C9: the storage upsert is an idempotent keyed write: starting from
any table with unique URL keys, any sequence of upserts preserves key
uniqueness (at most one record per URL); the record found under a key
after an upsert is the upserted record for that key and is otherwise
unchanged (so the most recent upsert with a key wins); and repeating an
upsert leaves the table unchanged. -/
theorem upsert_page_keyed_idempotent (t : List PageRow)
    (h : (t.map (·.url)).Nodup) :
    (∀ rs : List PageRow, ((rs.foldl upsertRow t).map (·.url)).Nodup) ∧
    (∀ (r : PageRow) (k : String),
      lookupRow (upsertRow t r) k = if k = r.url then some r else lookupRow t k) ∧
    (∀ r : PageRow, upsertRow (upsertRow t r) r = upsertRow t r) :=
  ⟨fun rs => foldl_upsertRow_keys_nodup rs t h,
   fun r k => lookupRow_upsertRow t r k,
   fun r => upsertRow_idem t r⟩

/-- C9, witness: the upsert contract applied to a concrete one-row
table. -/
theorem upsert_page_keyed_witness :
    lookupRow (upsertRow [⟨"http://a.test/", 200, "t0", "x", none, "h", 5⟩]
        ⟨"http://a.test/", 404, "t1", "y", none, "h2", 9⟩) "http://a.test/" =
      some ⟨"http://a.test/", 404, "t1", "y", none, "h2", 9⟩ ∧
    upsertRow (upsertRow [⟨"http://a.test/", 200, "t0", "x", none, "h", 5⟩]
        ⟨"http://a.test/", 404, "t1", "y", none, "h2", 9⟩)
        ⟨"http://a.test/", 404, "t1", "y", none, "h2", 9⟩ =
      upsertRow [⟨"http://a.test/", 200, "t0", "x", none, "h", 5⟩]
        ⟨"http://a.test/", 404, "t1", "y", none, "h2", 9⟩ := by
  have h := upsert_page_keyed_idempotent
    [⟨"http://a.test/", 200, "t0", "x", none, "h", 5⟩] (by decide)
  refine ⟨?_, h.2.2 _⟩
  rw [h.2.1 ⟨"http://a.test/", 404, "t1", "y", none, "h2", 9⟩ "http://a.test/"]
  simp

/-- C10: with no open connection (`db_path` unset, or the async context
never entered so `conn` is still `none`), every storage operation is a
no-op at the public interface: entering with `db_path = None` opens
nothing, `upsert_page` returns the storage unchanged, and `list_pages`
and `get_all_urls` return empty collections. -/
theorem storage_noop_without_conn (s : ScraperStorage) (r : PageRow)
    (disk : List PageRow) :
    (s.db_path = none → storageAenter s disk = s) ∧
    (s.conn = none →
      storageUpsertPage s r = s ∧
      storageListPages s = [] ∧
      storageGetAllUrls s = []) := by
  constructor
  · intro h
    unfold storageAenter
    rw [h]
  · intro h
    unfold storageUpsertPage storageListPages storageGetAllUrls
    rw [h]
    exact ⟨rfl, rfl, rfl⟩

/-- C10, witness: the no-op contract at the concrete storage value with
`db_path = None` and no connection. -/
theorem storage_noop_witness :
    storageAenter ⟨none, none⟩ [] = (⟨none, none⟩ : ScraperStorage) ∧
    storageUpsertPage ⟨none, none⟩ ⟨"u", 200, "t", "x", none, "h", 1⟩ =
      (⟨none, none⟩ : ScraperStorage) ∧
    storageListPages ⟨none, none⟩ = [] ∧
    storageGetAllUrls ⟨none, none⟩ = [] := by
  have h := storage_noop_without_conn ⟨none, none⟩ ⟨"u", 200, "t", "x", none, "h", 1⟩ []
  exact ⟨h.1 rfl, (h.2 rfl).1, (h.2 rfl).2.1, (h.2 rfl).2.2⟩

/-! ## Theorems about the robots policy cache (claim C4) -/

/-- C4, counterexample: a robots.txt fetch ending in a non-2xx status
below 400 is not treated as a failure: a `301` response whose body is a
blanket `Disallow` makes `isAllowed` return `false`, and its `Sitemap:`
lines are collected, contradicting the claim that any non-2xx status
leaves the origin unrestricted with no sitemaps. -/
theorem robots_non2xx_counterexample :
    robotsAllowed "ua" (.resp 301 "User-agent: *\nDisallow: /") "http://o/x" = false ∧
    robotsSitemaps (.resp 301 "Sitemap: http://o/sm.xml") = ["http://o/sm.xml"] := by
  constructor
  · decide
  · decide

/-- C4 (amended): when the robots.txt fetch fails with a network
error/timeout (an exception) or an HTTP status of 400 or above, the
origin is treated as unrestricted: `isAllowed` is true for every URL
and user agent, and the sitemap list is empty.  (Statuses 200–399 are
treated as success and their body is parsed as robots rules.) -/
theorem robots_fail_open (ua url : String) (outcome : RobotsFetch)
    (h : outcome = .err ∨ ∃ s b, outcome = .resp s b ∧ 400 ≤ s) :
    robotsAllowed ua outcome url = true ∧ robotsSitemaps outcome = [] := by
  have htext : robotsText outcome = "" := by
    rcases h with h | ⟨s, b, h, hs⟩
    · rw [h]
      rfl
    · rw [h]
      simp [robotsText, Nat.not_lt.mpr hs]
  unfold robotsAllowed robotsSitemaps
  rw [htext]
  exact ⟨rfl, rfl⟩

/-- C4, witness: the fail-open theorem applied to a concrete network
error. -/
theorem robots_fail_open_witness :
    robotsAllowed "FullScraper/1.0" .err "http://o/any/path" = true ∧
    robotsSitemaps .err = [] :=
  robots_fail_open "FullScraper/1.0" "http://o/any/path" .err (Or.inl rfl)

/-! ## Theorems about the retrying fetcher (claim C7) -/

/-- C7, counterexample: a received non-2xx status below 400 is not
returned "with no extraction (empty body)": a 301 response's body is
returned unchanged (and is then extracted), since only statuses
`>= 400` have their body replaced by the empty string. -/
theorem fetch_non2xx_body_counterexample :
    fetchHtml [.resp 301 "x"] = .ok (301, "x") ∧
    fetchHtml [.resp 301 "x"] ≠ .ok (301, "") := by
  constructor
  · simp [fetchHtml, fetchHtmlAux]
  · simp [fetchHtml, fetchHtmlAux]

/-- C7 (amended): the fetcher makes at most 3 attempts (the result
depends only on the first three attempt outcomes); it retries only
transient transport failures — after fewer than three transport
failures, a received HTTP response is returned immediately (never
retried), with its body replaced by `""` exactly when the status is
`>= 400`, and a non-retryable exception is re-raised immediately; three
transport failures exhaust the retries and raise.  (The inter-attempt
backoff is tenacity's deterministic exponential wait; timing is not
modelled.) -/
theorem fetch_retry_policy :
    (∀ l rest : List Attempt, l.length = 3 → fetchHtml (l ++ rest) = fetchHtml l) ∧
    (∀ (pre rest : List Attempt) (s : Nat) (b : String),
      (∀ a ∈ pre, a = Attempt.transport) → pre.length < 3 →
      fetchHtml (pre ++ .resp s b :: rest) = .ok (s, if 400 ≤ s then "" else b)) ∧
    (∀ outcomes : List Attempt,
      (∀ a ∈ outcomes, a = Attempt.transport) → 3 ≤ outcomes.length →
      fetchHtml outcomes = .error .retryExhausted) ∧
    (∀ pre rest : List Attempt, (∀ a ∈ pre, a = Attempt.transport) →
      pre.length < 3 → fetchHtml (pre ++ .otherExn :: rest) = .error .raised) := by
  refine ⟨?_, ?_, ?_, ?_⟩
  · intro l rest hlen
    match l, hlen with
    | [a, b, c], _ =>
      cases a <;> cases b <;> cases c <;> simp [fetchHtml, fetchHtmlAux]
  · intro pre rest s b hall hlen
    match pre, hlen with
    | [], _ => simp [fetchHtml, fetchHtmlAux]
    | [a], _ =>
      rw [hall a (by simp)]
      simp [fetchHtml, fetchHtmlAux]
    | [a, a2], _ =>
      rw [hall a (by simp), hall a2 (by simp)]
      simp [fetchHtml, fetchHtmlAux]
  · intro outcomes hall hlen
    match outcomes, hlen with
    | a :: a2 :: a3 :: rest, _ =>
      rw [hall a (by simp), hall a2 (by simp), hall a3 (by simp)]
      simp [fetchHtml, fetchHtmlAux]
  · intro pre rest hall hlen
    match pre, hlen with
    | [], _ => simp [fetchHtml, fetchHtmlAux]
    | [a], _ =>
      rw [hall a (by simp)]
      simp [fetchHtml, fetchHtmlAux]
    | [a, a2], _ =>
      rw [hall a (by simp), hall a2 (by simp)]
      simp [fetchHtml, fetchHtmlAux]

/-- C7, witness: the retry-policy theorem applied to one transport
failure followed by a 404 response: the status is returned after a
single retry, with an empty body. -/
theorem fetch_retry_policy_witness :
    fetchHtml [.transport, .resp 404 "body"] = .ok (404, "") := by
  have h := fetch_retry_policy.2.1 [.transport] [] 404 "body"
    (by intro a ha; simpa using ha) (by simp)
  simpa using h

/-! ## Infrastructure lemmas about the crawl step relation -/

theorem enqueueLinks_fields (cfg : CrawlConfig) (d : Nat) (links : List String)
    (st : CrawlState) :
    (enqueueLinks cfg d links st).seen = st.seen ∧
    (enqueueLinks cfg d links st).stored = st.stored ∧
    (enqueueLinks cfg d links st).records = st.records ∧
    (enqueueLinks cfg d links st).fetchedLog = st.fetchedLog := by
  induction links generalizing st with
  | nil => exact ⟨rfl, rfl, rfl, rfl⟩
  | cons l ls ih =>
    have hstep : enqueueLinks cfg d (l :: ls) st =
        enqueueLinks cfg d ls
          (if should_enqueue cfg st.seen l = true then
            { st with queue := st.queue ++ [(l, d)], enqueues := st.enqueues ++ [l] }
          else st) := rfl
    rw [hstep]
    by_cases hse : should_enqueue cfg st.seen l = true
    · rw [if_pos hse]
      exact ih _
    · rw [if_neg hse]
      exact ih st

/-- Exhaustive case analysis of one worker iteration. -/
theorem step_eq_cases (cfg : CrawlConfig) (robots : String → Bool)
    (fetch : String → FetchOutcome) (st : CrawlState) :
    (step cfg robots fetch st = .halt ∧
      (st.queue = [] ∨ cfg.maxPages ≤ st.seen.length)) ∨
    ∃ url depth rest, st.queue = (url, depth) :: rest ∧
      st.seen.length < cfg.maxPages ∧
      ((url ∈ st.seen ∧
          step cfg robots fetch st = .cont { st with queue := rest }) ∨
       (url ∉ st.seen ∧ robots url = false ∧
          step cfg robots fetch st =
            .cont { st with queue := rest, seen := url :: st.seen }) ∨
       (url ∉ st.seen ∧ robots url = true ∧ fetch url = .exn ∧
          step cfg robots fetch st = .abort (stepFetched st url rest)) ∨
       (url ∉ st.seen ∧ robots url = true ∧ fetch url = .skip ∧
          step cfg robots fetch st = .cont (stepFetched st url rest)) ∨
       (∃ status links, url ∉ st.seen ∧ robots url = true ∧
          fetch url = .page status links ∧
          step cfg robots fetch st =
            .cont (stepPage cfg st url depth rest status links))) := by
  cases hq : st.queue with
  | nil =>
    left
    exact ⟨by simp [step, hq], Or.inl rfl⟩
  | cons p rest =>
    obtain ⟨url, depth⟩ := p
    by_cases hguard : st.seen.length < cfg.maxPages
    · right
      refine ⟨url, depth, rest, rfl, hguard, ?_⟩
      by_cases hseen : url ∈ st.seen
      · exact Or.inl ⟨hseen, by simp [step, hq, hguard, hseen]⟩
      · by_cases hrob : robots url = true
        · cases hf : fetch url with
          | exn =>
            exact Or.inr (Or.inr (Or.inl ⟨hseen, hrob,
              rfl, by simp [step, hq, hguard, hseen, hrob, hf]⟩))
          | skip =>
            exact Or.inr (Or.inr (Or.inr (Or.inl ⟨hseen, hrob,
              rfl, by simp [step, hq, hguard, hseen, hrob, hf]⟩)))
          | page status links =>
            exact Or.inr (Or.inr (Or.inr (Or.inr ⟨status, links, hseen, hrob,
              rfl, by simp [step, hq, hguard, hseen, hrob, hf]⟩)))
        · have hrob' : robots url = false := by simpa using hrob
          exact Or.inr (Or.inl ⟨hseen, hrob',
            by simp [step, hq, hguard, hseen, hrob']⟩)
    · left
      exact ⟨by simp [step, hq, hguard], Or.inr (Nat.le_of_not_lt hguard)⟩

/-- The components of the post-fetch state of a fresh URL: `stepPage`
differs from `stepFetched` only in the queue/enqueue log and, when
storage is configured, the stored counter and record log. -/
theorem stepPage_fields (cfg : CrawlConfig) (st : CrawlState) (url : String)
    (depth : Nat) (rest : List (String × Nat)) (status : Nat)
    (links : List String) :
    (stepPage cfg st url depth rest status links).seen = url :: st.seen ∧
    (stepPage cfg st url depth rest status links).fetchedLog =
      url :: st.fetchedLog ∧
    ((cfg.storage = true ∧
        (stepPage cfg st url depth rest status links).stored = st.stored + 1 ∧
        (stepPage cfg st url depth rest status links).records =
          (url, status) :: st.records) ∨
     (cfg.storage = false ∧
        (stepPage cfg st url depth rest status links).stored = st.stored ∧
        (stepPage cfg st url depth rest status links).records = st.records)) := by
  simp only [stepPage, stepFetched]
  by_cases hs : cfg.storage = true
  · rw [if_pos hs]
    by_cases hd : depth < cfg.maxDepth
    · rw [if_pos hd]
      obtain ⟨e1, e2, e3, e4⟩ := enqueueLinks_fields cfg (depth + 1) links
        { st with queue := rest, seen := url :: st.seen,
                  fetchedLog := url :: st.fetchedLog,
                  stored := st.stored + 1, records := (url, status) :: st.records }
      exact ⟨e1, e4, Or.inl ⟨hs, e2, e3⟩⟩
    · rw [if_neg hd]
      exact ⟨rfl, rfl, Or.inl ⟨hs, rfl, rfl⟩⟩
  · rw [if_neg hs]
    have hs' : cfg.storage = false := by simpa using hs
    by_cases hd : depth < cfg.maxDepth
    · rw [if_pos hd]
      obtain ⟨e1, e2, e3, e4⟩ := enqueueLinks_fields cfg (depth + 1) links
        { st with queue := rest, seen := url :: st.seen,
                  fetchedLog := url :: st.fetchedLog }
      exact ⟨e1, e4, Or.inr ⟨hs', e2, e3⟩⟩
    · rw [if_neg hd]
      exact ⟨rfl, rfl, Or.inr ⟨hs', rfl, rfl⟩⟩

/-! ## Theorems about frontier deduplication (claim C1) -/

theorem fetchInv_fresh {preSeen : List String} {st : CrawlState} {url : String}
    (hst : FetchInv preSeen st) (hseen : url ∉ st.seen) :
    (url :: st.fetchedLog).Nodup ∧
    (∀ u ∈ url :: st.fetchedLog, u ∈ url :: st.seen) ∧
    (∀ u ∈ preSeen, u ∈ url :: st.seen) ∧
    (∀ u ∈ url :: st.fetchedLog, u ∉ preSeen) := by
  obtain ⟨hnd, hsub, hpre, hnp, -⟩ := hst
  refine ⟨List.nodup_cons.mpr ⟨fun hu => hseen (hsub url hu), hnd⟩, ?_, ?_, ?_⟩
  · intro u hu
    rcases List.mem_cons.mp hu with h | h
    · exact List.mem_cons.mpr (Or.inl h)
    · exact List.mem_cons.mpr (Or.inr (hsub u h))
  · intro u hu
    exact List.mem_cons.mpr (Or.inr (hpre u hu))
  · intro u hu
    rcases List.mem_cons.mp hu with h | h
    · subst h
      exact fun hp => hseen (hpre u hp)
    · exact hnp u h

theorem step_fetchInv (cfg : CrawlConfig) (robots : String → Bool)
    (fetch : String → FetchOutcome) {preSeen : List String}
    {st s' : CrawlState} (hst : FetchInv preSeen st)
    (h : step cfg robots fetch st = .cont s' ∨
         step cfg robots fetch st = .abort s') :
    FetchInv preSeen s' := by
  rcases step_eq_cases cfg robots fetch st with ⟨hh, -⟩ |
    ⟨url, depth, rest, hq, hguard, hcases⟩
  · rcases h with h | h <;> rw [hh] at h <;> exact StepRes.noConfusion h
  · obtain ⟨hnd, hsub, hpre, hnp, hrec⟩ := hst
    rcases hcases with ⟨hseen, heq⟩ | ⟨hseen, hrob, heq⟩ |
      ⟨hseen, hrob, hf, heq⟩ | ⟨hseen, hrob, hf, heq⟩ |
      ⟨status, links, hseen, hrob, hf, heq⟩
    · -- already-seen URL: dropped, state fields unchanged
      have hs' : s' = { st with queue := rest } := by
        rcases h with h | h <;> rw [heq] at h <;> cases h
        · rfl
      subst hs'
      exact ⟨hnd, hsub, hpre, hnp, hrec⟩
    · -- robots denial: URL marked seen, not fetched
      have hs' : s' = { st with queue := rest, seen := url :: st.seen } := by
        rcases h with h | h <;> rw [heq] at h <;> cases h
        · rfl
      subst hs'
      obtain ⟨n1, n2, n3, n4⟩ := fetchInv_fresh ⟨hnd, hsub, hpre, hnp, hrec⟩ hseen
      exact ⟨hnd, fun u hu => List.mem_cons.mpr (Or.inr (hsub u hu)),
        fun u hu => List.mem_cons.mpr (Or.inr (hpre u hu)), hnp, hrec⟩
    · -- fetch raises: abort state
      have hs' : s' = stepFetched st url rest := by
        rcases h with h | h <;> rw [heq] at h <;> cases h
        · rfl
      subst hs'
      obtain ⟨n1, n2, n3, n4⟩ := fetchInv_fresh ⟨hnd, hsub, hpre, hnp, hrec⟩ hseen
      exact ⟨n1, n2, n3, n4, hrec.cons url⟩
    · -- falsy fetch result: URL logged, nothing stored
      have hs' : s' = stepFetched st url rest := by
        rcases h with h | h <;> rw [heq] at h <;> cases h
        · rfl
      subst hs'
      obtain ⟨n1, n2, n3, n4⟩ := fetchInv_fresh ⟨hnd, hsub, hpre, hnp, hrec⟩ hseen
      exact ⟨n1, n2, n3, n4, hrec.cons url⟩
    · -- successful fetch: URL logged, possibly stored, links enqueued
      have hs' : s' = stepPage cfg st url depth rest status links := by
        rcases h with h | h <;> rw [heq] at h <;> cases h
        · rfl
      subst hs'
      obtain ⟨n1, n2, n3, n4⟩ := fetchInv_fresh ⟨hnd, hsub, hpre, hnp, hrec⟩ hseen
      obtain ⟨e1, e2, e3⟩ := stepPage_fields cfg st url depth rest status links
      refine ⟨e2 ▸ n1, ?_, ?_, e2 ▸ n4, ?_⟩
      · rw [e1, e2]
        exact n2
      · rw [e1]
        exact n3
      · rcases e3 with ⟨-, -, er⟩ | ⟨-, -, er⟩
        · rw [er, e2]
          exact hrec.cons₂ url
        · rw [er, e2]
          exact hrec.cons url

theorem run_fetchInv (cfg : CrawlConfig) (robots : String → Bool)
    (fetch : String → FetchOutcome) (preSeen : List String) :
    ∀ (fuel : Nat) (st : CrawlState), FetchInv preSeen st →
      FetchInv preSeen (run cfg robots fetch fuel st).1 := by
  intro fuel
  induction fuel with
  | zero => exact fun st h => h
  | succ n ih =>
    intro st h
    cases hs : step cfg robots fetch st with
    | halt => simpa [run, hs] using h
    | cont s =>
      have : run cfg robots fetch (n + 1) st = run cfg robots fetch n s := by
        simp [run, hs]
      rw [this]
      exact ih s (step_fetchInv cfg robots fetch h (Or.inl hs))
    | abort s =>
      have : run cfg robots fetch (n + 1) st = (s, true) := by
        simp [run, hs]
      rw [this]
      exact step_fetchInv cfg robots fetch h (Or.inr hs)

/-- C1 (amended): during one crawl a given URL string is fetched at
most once, and persisted at most once; URLs pre-seeded from storage on
resume are never fetched.  (The seen-set check-and-add happens at
dequeue time — with no `await` point between check and add — rather
than at enqueue time, so the queue may temporarily hold duplicate
entries for one URL, but every dequeue of a URL after its first is
dropped.) -/
theorem crawl_fetches_url_at_most_once (cfg : CrawlConfig)
    (robots : String → Bool) (fetch : String → FetchOutcome) (fuel : Nat)
    (seeds preSeen : List String) :
    (run cfg robots fetch fuel (initState seeds preSeen)).1.fetchedLog.Nodup ∧
    (∀ u ∈ (run cfg robots fetch fuel (initState seeds preSeen)).1.fetchedLog,
      u ∉ preSeen) ∧
    ((run cfg robots fetch fuel (initState seeds preSeen)).1.records.map
      Prod.fst).Nodup := by
  have hinit : FetchInv preSeen (initState seeds preSeen) := by
    refine ⟨List.nodup_nil, ?_, ?_, ?_, List.nil_sublist _⟩
    · intro u hu
      cases hu
    · exact fun u hu => hu
    · intro u hu
      cases hu
  have h := run_fetchInv cfg robots fetch preSeen fuel (initState seeds preSeen) hinit
  exact ⟨h.1, h.2.2.2.1, h.2.2.2.2.nodup h.1⟩

/-- C1, counterexample to the claim as stated: the two spec example
URLs do not collapse to one frontier entry, because
`Crawler._normalize_url` preserves host case (it only removes the
fragment and one trailing slash); a crawl whose seed page links to
both `http://EX.com/a/` and `http://ex.com/a` appends two frontier
entries.  Moreover acceptance does not add the URL to the seen set
(that happens at dequeue), so two pages linking to the same URL `X`
enqueue it twice. -/
theorem frontier_dedup_counterexample :
    normalizeHref (fun _ href => href) "http://s.test/" "http://EX.com/a/" =
      some "http://EX.com/a" ∧
    normalizeHref (fun _ href => href) "http://s.test/" "http://ex.com/a" =
      some "http://ex.com/a" ∧
    (run ⟨100, 5, fun _ => false, [], fun _ => "", true⟩ (fun _ => true)
        (fun u => if u = "S" then
            .page 200 ["http://EX.com/a", "http://ex.com/a"]
          else .skip)
        10 (initState ["S"] [])).1.enqueues =
      ["http://EX.com/a", "http://ex.com/a"] ∧
    (run ⟨100, 5, fun _ => false, [], fun _ => "", true⟩ (fun _ => true)
        (fun u => if u = "A" ∨ u = "B" then .page 200 ["X"] else .skip)
        10 (initState ["A", "B"] [])).1.enqueues = ["X", "X"] := by
  refine ⟨by decide, by decide, by decide, by decide⟩

/-! ## Theorems about the page budget (claim C2) -/

/-- Generic preservation of a state predicate through `run`. -/
theorem run_preserves (cfg : CrawlConfig) (robots : String → Bool)
    (fetch : String → FetchOutcome) (P : CrawlState → Prop)
    (hstep : ∀ st s', P st →
      (step cfg robots fetch st = .cont s' ∨
       step cfg robots fetch st = .abort s') → P s') :
    ∀ (fuel : Nat) (st : CrawlState), P st → P (run cfg robots fetch fuel st).1 := by
  intro fuel
  induction fuel with
  | zero => exact fun st h => h
  | succ n ih =>
    intro st h
    cases hs : step cfg robots fetch st with
    | halt => simpa [run, hs] using h
    | cont s =>
      have hr : run cfg robots fetch (n + 1) st = run cfg robots fetch n s := by
        simp [run, hs]
      rw [hr]
      exact ih s (hstep st s h (Or.inl hs))
    | abort s =>
      have hr : run cfg robots fetch (n + 1) st = (s, true) := by
        simp [run, hs]
      rw [hr]
      exact hstep st s h (Or.inr hs)

theorem step_budget (cfg : CrawlConfig) (robots : String → Bool)
    (fetch : String → FetchOutcome) {st s' : CrawlState}
    (hst : st.stored ≤ st.seen.length ∧ st.seen.length ≤ cfg.maxPages)
    (h : step cfg robots fetch st = .cont s' ∨
         step cfg robots fetch st = .abort s') :
    s'.stored ≤ s'.seen.length ∧ s'.seen.length ≤ cfg.maxPages := by
  rcases step_eq_cases cfg robots fetch st with ⟨hh, -⟩ |
    ⟨url, depth, rest, hq, hguard, hcases⟩
  · rcases h with h | h <;> rw [hh] at h <;> exact StepRes.noConfusion h
  · rcases hcases with ⟨hseen, heq⟩ | ⟨hseen, hrob, heq⟩ |
      ⟨hseen, hrob, hf, heq⟩ | ⟨hseen, hrob, hf, heq⟩ |
      ⟨status, links, hseen, hrob, hf, heq⟩
    · have hs' : s' = { st with queue := rest } := by
        rcases h with h | h <;> rw [heq] at h <;> cases h
        · rfl
      subst hs'
      exact hst
    · have hs' : s' = { st with queue := rest, seen := url :: st.seen } := by
        rcases h with h | h <;> rw [heq] at h <;> cases h
        · rfl
      subst hs'
      refine ⟨le_trans hst.1 (by simp), ?_⟩
      simpa using hguard
    · have hs' : s' = stepFetched st url rest := by
        rcases h with h | h <;> rw [heq] at h <;> cases h
        · rfl
      subst hs'
      exact ⟨le_trans hst.1 (by simp [stepFetched]),
        by simpa [stepFetched] using hguard⟩
    · have hs' : s' = stepFetched st url rest := by
        rcases h with h | h <;> rw [heq] at h <;> cases h
        · rfl
      subst hs'
      exact ⟨le_trans hst.1 (by simp [stepFetched]),
        by simpa [stepFetched] using hguard⟩
    · have hs' : s' = stepPage cfg st url depth rest status links := by
        rcases h with h | h <;> rw [heq] at h <;> cases h
        · rfl
      subst hs'
      obtain ⟨e1, -, e3⟩ := stepPage_fields cfg st url depth rest status links
      rcases e3 with ⟨-, es, -⟩ | ⟨-, es, -⟩ <;>
        rw [e1, es] <;> simp only [List.length_cons] <;> omega

theorem step_stored_eq_seen (cfg : CrawlConfig) (robots : String → Bool)
    (fetch : String → FetchOutcome) (hR : ∀ u, robots u = true)
    (hF : ∀ u, ∃ s l, fetch u = .page s l) (hS : cfg.storage = true)
    {st s' : CrawlState} (hst : st.stored = st.seen.length)
    (h : step cfg robots fetch st = .cont s' ∨
         step cfg robots fetch st = .abort s') :
    s'.stored = s'.seen.length := by
  rcases step_eq_cases cfg robots fetch st with ⟨hh, -⟩ |
    ⟨url, depth, rest, hq, hguard, hcases⟩
  · rcases h with h | h <;> rw [hh] at h <;> exact StepRes.noConfusion h
  · rcases hcases with ⟨hseen, heq⟩ | ⟨hseen, hrob, heq⟩ |
      ⟨hseen, hrob, hf, heq⟩ | ⟨hseen, hrob, hf, heq⟩ |
      ⟨status, links, hseen, hrob, hf, heq⟩
    · have hs' : s' = { st with queue := rest } := by
        rcases h with h | h <;> rw [heq] at h <;> cases h
        · rfl
      subst hs'
      exact hst
    · rw [hR url] at hrob
      exact absurd hrob (by simp)
    · obtain ⟨s0, l0, hp⟩ := hF url
      rw [hp] at hf
      exact FetchOutcome.noConfusion hf
    · obtain ⟨s0, l0, hp⟩ := hF url
      rw [hp] at hf
      exact FetchOutcome.noConfusion hf
    · have hs' : s' = stepPage cfg st url depth rest status links := by
        rcases h with h | h <;> rw [heq] at h <;> cases h
        · rfl
      subst hs'
      obtain ⟨e1, -, e3⟩ := stepPage_fields cfg st url depth rest status links
      rcases e3 with ⟨-, es, -⟩ | ⟨hsf, -, -⟩
      · rw [e1, es, hst]
        simp
      · rw [hS] at hsf
        exact Bool.noConfusion hsf

/-- C2: the page budget is a hard stop.  In the sequential model of the
worker loop (the pop / seen-check / seen-add prefix of an iteration has
no `await` point, so each iteration's budget check is atomic): (1) the
number of stored pages never exceeds `max_pages` (starting from a fresh
crawl, no resume); (2) once `len(seen)` has reached `max_pages` no
further dequeue or fetch happens — the loop halts; (3) when the loop
has halted with a nonempty queue (budget exhaustion rather than
frontier exhaustion) and every URL passed robots and fetched
successfully with storage configured, exactly `max_pages` pages were
stored. -/
theorem crawl_page_budget (cfg : CrawlConfig) (robots : String → Bool)
    (fetch : String → FetchOutcome) (fuel : Nat) (seeds : List String) :
    (run cfg robots fetch fuel (initState seeds [])).1.stored ≤ cfg.maxPages ∧
    (∀ st : CrawlState, cfg.maxPages ≤ st.seen.length →
      step cfg robots fetch st = .halt) ∧
    ((∀ u, robots u = true) → (∀ u, ∃ s l, fetch u = .page s l) →
      cfg.storage = true →
      step cfg robots fetch (run cfg robots fetch fuel (initState seeds [])).1 =
        .halt →
      (run cfg robots fetch fuel (initState seeds [])).1.queue ≠ [] →
      (run cfg robots fetch fuel (initState seeds [])).1.stored = cfg.maxPages) := by
  have hb := run_preserves cfg robots fetch
    (fun st => st.stored ≤ st.seen.length ∧ st.seen.length ≤ cfg.maxPages)
    (fun st s' h hs => step_budget cfg robots fetch h hs) fuel
    (initState seeds []) ⟨Nat.le_refl 0, Nat.zero_le _⟩
  refine ⟨le_trans hb.1 hb.2, ?_, ?_⟩
  · intro st hle
    rcases step_eq_cases cfg robots fetch st with ⟨hh, -⟩ |
      ⟨url, depth, rest, hq, hguard, -⟩
    · exact hh
    · omega
  · intro hR hF hS hhalt hqne
    have he := run_preserves cfg robots fetch
      (fun st => st.stored = st.seen.length)
      (fun st s' h hs => step_stored_eq_seen cfg robots fetch hR hF hS h hs) fuel
      (initState seeds []) rfl
    have hge : cfg.maxPages ≤
        (run cfg robots fetch fuel (initState seeds [])).1.seen.length := by
      rcases step_eq_cases cfg robots fetch
          (run cfg robots fetch fuel (initState seeds [])).1 with ⟨-, hor⟩ |
        ⟨url, depth, rest, hq, hguard, hcases⟩
      · rcases hor with hor | hor
        · exact absurd hor hqne
        · exact hor
      · exfalso
        rcases hcases with ⟨-, heq⟩ | ⟨-, -, heq⟩ | ⟨-, -, -, heq⟩ |
          ⟨-, -, -, heq⟩ | ⟨s0, l0, -, -, -, heq⟩ <;>
          rw [heq] at hhalt <;> exact StepRes.noConfusion hhalt
    have hle := hb.2
    rw [he]
    omega

/-- C2, witness: with `max_pages = 5` over an unbounded synthetic site
(every page links to one fresh page), the halted crawl has stored
exactly 5 pages while its queue is still nonempty. -/
theorem crawl_page_budget_witness :
    (run ⟨5, 100, fun _ => false, [], fun _ => "", true⟩ (fun _ => true)
      (fun u => .page 200 [u ++ "x"]) 12 (initState ["s"] [])).1.stored = 5 :=
  (crawl_page_budget ⟨5, 100, fun _ => false, [], fun _ => "", true⟩
      (fun _ => true) (fun u => .page 200 [u ++ "x"]) 12 ["s"]).2.2
    (fun _ => rfl) (fun u => ⟨200, [u ++ "x"], rfl⟩) rfl (by decide) (by decide)

/-! ## Theorems about error locality (claim C3) -/

theorem run_no_abort (cfg : CrawlConfig) (robots : String → Bool)
    (fetch : String → FetchOutcome) (hf : ∀ u, fetch u ≠ .exn) :
    ∀ (fuel : Nat) (st : CrawlState), (run cfg robots fetch fuel st).2 = false := by
  intro fuel
  induction fuel with
  | zero => exact fun st => rfl
  | succ n ih =>
    intro st
    cases hs : step cfg robots fetch st with
    | halt => simp [run, hs]
    | cont s => simpa [run, hs] using ih s
    | abort s =>
      exfalso
      rcases step_eq_cases cfg robots fetch st with ⟨hh, -⟩ |
        ⟨url, depth, rest, hq, hg, hc⟩
      · rw [hh] at hs
        exact StepRes.noConfusion hs
      · rcases hc with ⟨-, heq⟩ | ⟨-, -, heq⟩ | ⟨-, -, hfe, heq⟩ |
          ⟨-, -, -, heq⟩ | ⟨s0, l0, -, -, -, heq⟩
        · rw [heq] at hs
          exact StepRes.noConfusion hs
        · rw [heq] at hs
          exact StepRes.noConfusion hs
        · exact hf url hfe
        · rw [heq] at hs
          exact StepRes.noConfusion hs
        · rw [heq] at hs
          exact StepRes.noConfusion hs

/-- C3 (amended): failures below the level of a raised exception are
local to one URL: when no URL's fetch raises, the scraper crawl never
aborts; an HTTP error status is a returned result (status kept, body
emptied), hence recorded in that URL's PageRecord with the crawl
continuing.  Extraction errors degrade to empty extractions:
`extract_readable` falls back to the plain parse when the readability
path raises, and returns empty title and text (rather than raising)
when both parse paths raise.  In the site_scraper variant every
failure is local: a failed request is recorded as `request_failed`, a
status `>= 400` as `http_{status}`, and everything else yields a
record with no error.  However, in the scraper variant a transport
error whose retries are exhausted raises out of the worker and aborts
the crawl (see the counterexample), rather than being recorded as a
terminal error record. -/
theorem crawl_error_locality :
    (∀ (cfg : CrawlConfig) (robots : String → Bool)
      (fetch : String → FetchOutcome) (fuel : Nat) (seeds preSeen : List String),
      (∀ u, fetch u ≠ .exn) →
      (run cfg robots fetch fuel (initState seeds preSeen)).2 = false) ∧
    (∀ (s : Nat) (b : String), 400 ≤ s → fetchHtml [.resp s b] = .ok (s, "")) ∧
    (siteWorkerRecord .failed).error = some "request_failed" ∧
    (∀ (s : Nat) (ct : String) (up : Bool), 400 ≤ s →
      (siteWorkerRecord (.resp s ct up)).error = some ("http_" ++ toString s)) ∧
    (∀ (s : Nat) (ct : String) (up : Bool), s < 400 →
      (siteWorkerRecord (.resp s ct up)).error = none) ∧
    (∀ html : String, extract_readable html .raise .raise = ("", "")) ∧
    (∀ (html title text : String), html ≠ "" →
      extract_readable html .raise (.ok title text) = (title, text)) := by
  refine ⟨?_, ?_, rfl, ?_, ?_, ?_, ?_⟩
  · intro cfg robots fetch fuel seeds preSeen hf
    exact run_no_abort cfg robots fetch hf fuel (initState seeds preSeen)
  · intro s b hs
    simp [fetchHtml, fetchHtmlAux, hs]
  · intro s ct up hs
    simp [siteWorkerRecord, hs]
  · intro s ct up hs
    have hns : ¬400 ≤ s := Nat.not_le.mpr hs
    simp only [siteWorkerRecord, if_neg hns]
    split
    · rfl
    · split
      · rfl
      · rfl
  · intro html
    unfold extract_readable
    split
    · rfl
    · rfl
  · intro html title text hne
    simp [extract_readable, hne]

/-- C3, witness: the locality theorem applied to a concrete crawl with
no raising fetches, to a concrete 404, and to a concrete extraction
whose readability path raises. -/
theorem crawl_error_locality_witness :
    (run ⟨10, 5, fun _ => false, [], fun _ => "", true⟩ (fun _ => true)
      (fun _ => .skip) 3 (initState ["a"] [])).2 = false ∧
    (siteWorkerRecord (.resp 404 "text/html" false)).error =
      some ("http_" ++ toString 404) ∧
    extract_readable "<p>x</p>" .raise .raise = ("", "") ∧
    extract_readable "<p>x</p>" .raise (.ok "T" "x") = ("T", "x") :=
  ⟨crawl_error_locality.1 ⟨10, 5, fun _ => false, [], fun _ => "", true⟩
      (fun _ => true) (fun _ => .skip) 3 ["a"] []
      (fun _ h => FetchOutcome.noConfusion h),
    crawl_error_locality.2.2.2.1 404 "text/html" false (by norm_num),
    crawl_error_locality.2.2.2.2.2.1 "<p>x</p>",
    crawl_error_locality.2.2.2.2.2.2 "<p>x</p>" "T" "x" (by decide)⟩

/-- C3, counterexample to the claim as stated: in the scraper
implementation a transport failure on all three attempts makes
`_fetch_html` raise (tenacity re-raises after `stop_after_attempt(3)`),
and a raising fetch aborts the whole crawl: with seed `a` linking to
`b` whose fetch raises, the crawl ends aborted and no PageRecord was
written for `b` — the failure is neither recorded nor local. -/
theorem crawl_abort_counterexample :
    fetchHtml [.transport, .transport, .transport] = .error .retryExhausted ∧
    (run ⟨10, 5, fun _ => false, [], fun _ => "", true⟩ (fun _ => true)
      (fun u => if u = "a" then .page 200 ["b"]
        else if u = "b" then .exn else .skip)
      10 (initState ["a"] [])).2 = true ∧
    (run ⟨10, 5, fun _ => false, [], fun _ => "", true⟩ (fun _ => true)
      (fun u => if u = "a" then .page 200 ["b"]
        else if u = "b" then .exn else .skip)
      10 (initState ["a"] [])).1.records.map Prod.fst = ["a"] := by
  refine ⟨rfl, by decide, by decide⟩

end Curo
